import Mathlib

/-!
# Verification of the PluginTemplate component model and remote input client

Shallow embedding of `PluginTemplate/DSL.py` (component tree, serializer,
page envelope) and of the socket client `ophelia_input.browser_input` in
`PluginTemplate/PluginTemplate.py`, with theorems settling the frozen
claims about the natural-language specification.
-/

/-- The universe of document values produced by serialization and carried
over the wire: the JSON-equivalent trees the DSL constructs (null, booleans,
strings, ordered arrays, ordered-key objects).  All prop values the source
constructors install are strings or lists of strings, so this type covers
every document the repository produces. -/
inductive JVal where
  | null : JVal
  | bool (b : Bool) : JVal
  | str (s : String) : JVal
  | arr (xs : List JVal) : JVal
  | obj (fields : List (String × JVal)) : JVal
deriving Repr

/-- An optional string serialized as JSON: Python `None` becomes `null`. -/
def jOfOptStr : Option String → JVal
  | none => JVal.null
  | some s => JVal.str s

/-- The ordered key list of an object document. -/
def jobjKeys : JVal → Option (List String)
  | JVal.obj fs => some (fs.map Prod.fst)
  | _ => none

/-- Look up a key in an object document (first occurrence). -/
def jobjGet (v : JVal) (k : String) : Option JVal :=
  match v with
  | JVal.obj fs => (fs.find? (fun f => f.1 == k)).map Prod.snd
  | _ => none

/-- A component of the UI tree, from `DSL.py`: `JS_Component` instances are
leaves (`type`, `id`, `classes`, `props`) and `JS_Container` instances
additionally own an ordered child list.  `type` is `Option String` because
the base class declares `type = None`; every concrete subclass overrides it
with a string. -/
inductive JS_Component where
  | leaf (type : Option String) (id : String) (classes : Option String)
      (props : List (String × JVal)) : JS_Component
  | container (type : Option String) (id : String) (classes : Option String)
      (props : List (String × JVal)) (children : List JS_Component) : JS_Component
deriving Repr

def JS_Component.type : JS_Component → Option String
  | .leaf t _ _ _ => t
  | .container t _ _ _ _ => t

def JS_Component.id : JS_Component → String
  | .leaf _ i _ _ => i
  | .container _ i _ _ _ => i

def JS_Component.classes : JS_Component → Option String
  | .leaf _ _ c _ => c
  | .container _ _ c _ _ => c

def JS_Component.props : JS_Component → List (String × JVal)
  | .leaf _ _ _ p => p
  | .container _ _ _ p _ => p

def JS_Component.children : JS_Component → List JS_Component
  | .leaf _ _ _ _ => []
  | .container _ _ _ _ cs => cs

/-- Python truthiness of the `classes` attribute: `None` and the empty
string are falsy, every other string is truthy. -/
def pyTruthyStr : Option String → Bool
  | none => false
  | some s => !(s == "")

/-- Model of `JS_Component.add_class` (DSL.py lines 19-24): if `self.classes` is
truthy, append a space and the new class name; otherwise set `classes` to
the name.  Mutates the component in place in Python; modelled here as
returning the post-state of the component. -/
def JS_add_class (c : JS_Component) (class_name : String) : JS_Component :=
  match c with
  | .leaf t i cl p =>
      .leaf t i (some (if pyTruthyStr cl then (cl.getD "") ++ " " ++ class_name else class_name)) p
  | .container t i cl p cs =>
      .container t i (some (if pyTruthyStr cl then (cl.getD "") ++ " " ++ class_name else class_name)) p cs

mutual

/-- Model of `serialize` (DSL.py lines 26-32 and 46-49): a leaf serializes to the
object with keys `type`, `id`, `classes`, `props` in that order; a container
appends a `children` key holding the ordered list of serialized children. -/
def JS_Component.serialize : JS_Component → JVal
  | .leaf t i c p =>
      JVal.obj [("type", jOfOptStr t), ("id", JVal.str i),
                ("classes", jOfOptStr c), ("props", JVal.obj p)]
  | .container t i c p cs =>
      JVal.obj [("type", jOfOptStr t), ("id", JVal.str i),
                ("classes", jOfOptStr c), ("props", JVal.obj p),
                ("children", JVal.arr (serializeChildren cs))]

/-- Model of `[child.serialize() for child in self.children]` (DSL.py line 48). -/
def serializeChildren : List JS_Component → List JVal
  | [] => []
  | c :: cs => c.serialize :: serializeChildren cs

end

theorem serializeChildren_eq_map (cs : List JS_Component) :
    serializeChildren cs = cs.map JS_Component.serialize := by
  induction cs with
  | nil => rfl
  | cons c cs ih => simp [serializeChildren, ih]

theorem JS_Component.serialize_container (t : Option String) (i : String)
    (c : Option String) (p : List (String × JVal)) (cs : List JS_Component) :
    JS_Component.serialize (.container t i c p cs) =
      JVal.obj [("type", jOfOptStr t), ("id", JVal.str i),
                ("classes", jOfOptStr c), ("props", JVal.obj p),
                ("children", JVal.arr (cs.map JS_Component.serialize))] := by
  rw [JS_Component.serialize, serializeChildren_eq_map]

/-- The page envelope `JS_Page` (DSL.py lines 185-194).  Its constructor
accepts exactly `title`, `prompt`, `form`, `description`, `root`. -/
structure JS_Page where
  title : String
  description : String
  prompt : String
  form : Bool
  root : JS_Component

/-- Model of `JS_Page.serialize` (DSL.py line 194). -/
def JS_Page.serialize (p : JS_Page) : JVal :=
  JVal.obj [("title", JVal.str p.title), ("description", JVal.str p.description),
            ("prompt", JVal.str p.prompt), ("form", JVal.bool p.form),
            ("root", p.root.serialize)]

/-- Python `str()` of an `Option String` as an f-string renders it:
`None` renders as the four characters `None`. -/
def pyStr : Option String → String
  | none => "None"
  | some s => s

/-- The heading class chosen by `JS_Header_Div` via
`heading_class_map.get(header_level, JS_H1)` (DSL.py lines 163-172),
reduced to the `type` string of the chosen class. -/
def heading_class_type (header_level : Int) : String :=
  if header_level = 1 then "h1"
  else if header_level = 2 then "h2"
  else if header_level = 3 then "h3"
  else if header_level = 4 then "h4"
  else if header_level = 5 then "h5"
  else if header_level = 6 then "h6"
  else "h1"

/-- Model of `JS_Header_Div.__init__` (DSL.py lines 155-178): builds the container
with classes `f"headerDivDefault {classes}"`, a heading leaf with id
`{id}_header` and the given text, and the caller's child mutated in place by
`add_class("inputFieldDefaults")`.  Returns the constructed container
together with the post-state of the caller's child (the same object in
Python). -/
def JS_Header_Div_init (id header : String) (header_level : Int)
    (child : JS_Component) (classes : Option String)
    (props : List (String × JVal)) : JS_Component × JS_Component :=
  let c := "headerDivDefault " ++ pyStr classes
  let heading_component : JS_Component :=
    .leaf (some (heading_class_type header_level)) (id ++ "_header") none
      [("text", JVal.str header)]
  let indented_child := JS_add_class child "inputFieldDefaults"
  (.container (some "div") id (some c) props [heading_component, indented_child],
   indented_child)

/-! ## The wire format: JSON text encoding and decoding

`browser_input` serializes the page with `json.dumps` and decodes the
response with `json.loads`.  Modelled from the spec: the wire format is a
"textual structured-data payload (a JSON-equivalent document)"; the encoder
below renders the document model as JSON text (objects and arrays with
`", "`/`": "` separators as `json.dumps` emits, strings quoted with
backslash escapes for the quote and backslash characters), and the decoder
is a recursive-descent reader of that grammar. -/

/-- Opening brace character of a JSON object. -/
def lbraceChar : Char := '\x7b'

/-- Closing brace character of a JSON object. -/
def rbraceChar : Char := '\x7d'

/-- Escape one character of a JSON string literal. -/
def escChar (c : Char) : List Char :=
  if c = '"' then ['\\', '"']
  else if c = '\\' then ['\\', '\\']
  else [c]

/-- Escape the body of a JSON string literal. -/
def escString (s : List Char) : List Char := (s.map escChar).flatten

mutual

/-- Render a document as JSON text (character list). -/
def encVal : JVal → List Char
  | .null => "null".data
  | .bool true => "true".data
  | .bool false => "false".data
  | .str s => '"' :: (escString s.data ++ ['"'])
  | .arr [] => ['[', ']']
  | .arr (x :: xs) => '[' :: (encVal x ++ (encItemsTail xs ++ [']']))
  | .obj [] => [lbraceChar, rbraceChar]
  | .obj (g :: fs) =>
      lbraceChar :: '"' ::
        (escString g.1.data ++
          ('"' :: ':' :: ' ' :: (encVal g.2 ++ (encFieldsTail fs ++ [rbraceChar]))))

/-- The tail of an encoded array: `", "`-prefixed encodings of the
remaining elements. -/
def encItemsTail : List JVal → List Char
  | [] => []
  | y :: ys => ',' :: ' ' :: (encVal y ++ encItemsTail ys)

/-- The tail of an encoded object: `", "`-prefixed encodings of the
remaining key-value fields. -/
def encFieldsTail : List (String × JVal) → List Char
  | [] => []
  | h :: hs =>
      ',' :: ' ' :: '"' ::
        (escString h.1.data ++ ('"' :: ':' :: ' ' :: (encVal h.2 ++ encFieldsTail hs)))

end

theorem encVal_arr_cons (x : JVal) (xs : List JVal) :
    encVal (.arr (x :: xs)) = '[' :: (encVal x ++ (encItemsTail xs ++ [']'])) := rfl

theorem encVal_obj_cons (g : String × JVal) (fs : List (String × JVal)) :
    encVal (.obj (g :: fs)) =
      lbraceChar :: '"' ::
        (escString g.1.data ++
          ('"' :: ':' :: ' ' :: (encVal g.2 ++ (encFieldsTail fs ++ [rbraceChar])))) := rfl

/-- Fuel budget sufficient for the reader to reconstruct a document. -/
def jfuel : JVal → Nat
  | .null => 1
  | .bool _ => 1
  | .str _ => 1
  | .arr xs => 1 + ((xs.attach.map (fun y => 1 + jfuel y.1)).sum)
  | .obj fs => 1 + ((fs.attach.map (fun gg => 1 + jfuel gg.1.2)).sum)
decreasing_by
  all_goals simp_wf
  all_goals try (have hm := List.sizeOf_lt_of_mem y.2; omega)
  all_goals
    (have hm := List.sizeOf_lt_of_mem gg.2
     rcases hp : (gg.1) with ⟨a, b⟩
     rw [hp] at hm
     simp only [Prod.mk.sizeOf_spec] at hm
     simp only [Prod.snd]
     omega)

theorem jfuel_arr (xs : List JVal) :
    jfuel (.arr xs) = 1 + ((xs.map (fun y => 1 + jfuel y)).sum) := by
  simp only [jfuel]
  rw [List.attach_map_val xs (fun y => 1 + jfuel y)]

theorem jfuel_obj (fs : List (String × JVal)) :
    jfuel (.obj fs) = 1 + ((fs.map (fun g => 1 + jfuel g.2)).sum) := by
  simp only [jfuel]
  rw [List.attach_map_val fs (fun g => 1 + jfuel g.2)]

theorem jfuel_pos (v : JVal) : 1 ≤ jfuel v := by
  cases v <;> simp only [jfuel] <;> omega

/-- Consume an expected literal character sequence. -/
def dropLit : List Char → List Char → Option (List Char)
  | [], cs => some cs
  | _ :: _, [] => none
  | l :: ls, c :: cs => if c = l then dropLit ls cs else none

/-- Read the body of a JSON string literal up to its closing quote,
resolving backslash escapes. -/
def jparseStr : List Char → Option (List Char × List Char)
  | [] => none
  | c :: rest =>
    if c = '\\' then
      match rest with
      | [] => none
      | e :: rest2 =>
        match jparseStr rest2 with
        | none => none
        | some (s, r) => some (e :: s, r)
    else if c = '"' then some ([], rest)
    else
      match jparseStr rest with
      | none => none
      | some (s, r) => some (c :: s, r)
termination_by cs => cs.length
decreasing_by all_goals simp_wf <;> omega

/-- Package the result of reading a string literal as a value. -/
def strResult : Option (List Char × List Char) → Option (JVal × List Char)
  | some (s, r) => some (JVal.str (String.mk s), r)
  | none => none

/-- Package an atom keyword (null, true, false) once its remaining
letters have been consumed. -/
def atomResult (v : JVal) : Option (List Char) → Option (JVal × List Char)
  | some r => some (v, r)
  | none => none

mutual

/-- Read one JSON value from the front of the input. -/
def jparseV : Nat → List Char → Option (JVal × List Char)
  | 0, _ => none
  | fuel + 1, cs =>
    match cs with
    | 'n' :: rest => atomResult JVal.null (dropLit ['u', 'l', 'l'] rest)
    | 't' :: rest => atomResult (JVal.bool true) (dropLit ['r', 'u', 'e'] rest)
    | 'f' :: rest => atomResult (JVal.bool false) (dropLit ['a', 'l', 's', 'e'] rest)
    | '"' :: rest => strResult (jparseStr rest)
    | '[' :: ']' :: rest => some (JVal.arr [], rest)
    | '[' :: r0 :: r2 => jparseItems fuel (r0 :: r2) []
    | '\x7b' :: '\x7d' :: rest => some (JVal.obj [], rest)
    | '\x7b' :: r0 :: r2 => jparseFields fuel (r0 :: r2) []
    | _ => none
termination_by fuel _ => fuel

/-- Read the elements of a JSON array after its opening bracket. -/
def jparseItems : Nat → List Char → List JVal → Option (JVal × List Char)
  | 0, _, _ => none
  | fuel + 1, cs, acc =>
    match jparseV fuel cs with
    | some (v, ']' :: r2) => some (JVal.arr (acc ++ [v]), r2)
    | some (v, ',' :: ' ' :: r3) => jparseItems fuel r3 (acc ++ [v])
    | _ => none
termination_by fuel _ _ => fuel

/-- Read the fields of a JSON object after its opening brace. -/
def jparseFields : Nat → List Char → List (String × JVal) → Option (JVal × List Char)
  | 0, _, _ => none
  | fuel + 1, cs, acc =>
    match cs with
    | '"' :: rest =>
      match jparseStr rest with
      | some (k, ':' :: ' ' :: r2) =>
        match jparseV fuel r2 with
        | some (v, '\x7d' :: r4) => some (JVal.obj (acc ++ [(String.mk k, v)]), r4)
        | some (v, ',' :: ' ' :: r5) => jparseFields fuel r5 (acc ++ [(String.mk k, v)])
        | _ => none
      | _ => none
    | _ => none
termination_by fuel _ _ => fuel

end

/-- Modelled from the spec: `json.dumps` is Python standard library, not
repository code; the spec describes the wire format as UTF-8 "textual
structured-data" (JSON).  This is the encoder producing that JSON text. -/
def jencode (v : JVal) : String := String.mk (encVal v)

/-- Modelled from the spec: `json.loads` is Python standard library, not
repository code.  Decoder of a JSON text: the document it denotes, when
the whole input is exactly one value. -/
def jdecode (s : String) : Option JVal :=
  match jparseV (s.data.length + 1) s.data with
  | some (v, []) => some v
  | _ => none

theorem string_mk_data (s : String) : String.mk s.data = s := rfl

theorem escString_nil : escString [] = [] := rfl

theorem escString_cons (c : Char) (s : List Char) :
    escString (c :: s) = escChar c ++ escString s := by
  simp [escString]

theorem jparseStr_escString (s rest : List Char) :
    jparseStr (escString s ++ ('"' :: rest)) = some (s, rest) := by
  induction s with
  | nil =>
    rw [escString_nil, List.nil_append, jparseStr.eq_def]
    simp
  | cons c s ih =>
    rw [escString_cons]
    by_cases h1 : c = '"'
    · subst h1
      rw [escChar, if_pos rfl]
      rw [List.cons_append, List.cons_append, jparseStr.eq_def]
      simp [ih]
    · by_cases h2 : c = '\\'
      · subst h2
        rw [escChar, if_neg (by decide), if_pos rfl]
        rw [List.cons_append, List.cons_append, jparseStr.eq_def]
        simp [ih]
      · rw [escChar, if_neg h1, if_neg h2]
        rw [List.cons_append, jparseStr.eq_def]
        simp [h1, h2, ih]

/-- Every encoded value starts with a character that is neither `]` nor
`,`, so the element loop of the reader never mistakes a value start for a
closing bracket. -/
theorem encVal_head_ne (v : JVal) :
    ∃ c tl, encVal v = c :: tl ∧ c ≠ ']' ∧ c ≠ rbraceChar := by
  cases v with
  | null => exact ⟨'n', ['u', 'l', 'l'], by rw [encVal.eq_def], by decide, by decide⟩
  | bool b => cases b with
    | true => exact ⟨'t', ['r', 'u', 'e'], by rw [encVal.eq_def], by decide, by decide⟩
    | false => exact ⟨'f', ['a', 'l', 's', 'e'], by rw [encVal.eq_def], by decide, by decide⟩
  | str s =>
    exact ⟨'"', escString s.data ++ ['"'], by rw [encVal.eq_def], by decide, by decide⟩
  | arr xs => cases xs with
    | nil => exact ⟨'[', [']'], by rw [encVal.eq_def], by decide, by decide⟩
    | cons x xs =>
      exact ⟨'[', encVal x ++ (encItemsTail xs ++ [']']), encVal_arr_cons x xs,
        by decide, by decide⟩
  | obj fs => cases fs with
    | nil => exact ⟨lbraceChar, [rbraceChar], by rw [encVal.eq_def], by decide, by decide⟩
    | cons g fs =>
      exact ⟨lbraceChar,
        '"' :: (escString g.1.data ++
          ('"' :: ':' :: ' ' :: (encVal g.2 ++ (encFieldsTail fs ++ [rbraceChar])))),
        encVal_obj_cons g fs, by decide, by decide⟩

theorem encVal_null : encVal JVal.null = ['n', 'u', 'l', 'l'] := rfl

theorem encVal_true : encVal (JVal.bool true) = ['t', 'r', 'u', 'e'] := rfl

theorem encVal_false : encVal (JVal.bool false) = ['f', 'a', 'l', 's', 'e'] := rfl

theorem encVal_str (s : String) :
    encVal (JVal.str s) = '"' :: (escString s.data ++ ['"']) := rfl

theorem encVal_arr_nil : encVal (JVal.arr []) = ['[', ']'] := rfl

theorem encVal_obj_nil : encVal (JVal.obj []) = [lbraceChar, rbraceChar] := rfl

theorem encItemsTail_nil : encItemsTail [] = [] := rfl

theorem encItemsTail_cons (y : JVal) (ys : List JVal) :
    encItemsTail (y :: ys) = ',' :: ' ' :: (encVal y ++ encItemsTail ys) := rfl

theorem encFieldsTail_nil : encFieldsTail [] = [] := rfl

theorem encFieldsTail_cons (h : String × JVal) (hs : List (String × JVal)) :
    encFieldsTail (h :: hs) =
      ',' :: ' ' :: '"' ::
        (escString h.1.data ++ ('"' :: ':' :: ' ' :: (encVal h.2 ++ encFieldsTail hs))) := rfl

theorem lbraceChar_ne_n : ¬(lbraceChar = 'n') := by decide

theorem lbraceChar_ne_t : ¬(lbraceChar = 't') := by decide

theorem lbraceChar_ne_f : ¬(lbraceChar = 'f') := by decide

theorem lbraceChar_ne_quote : ¬(lbraceChar = '"') := by decide

theorem lbraceChar_ne_lbracket : ¬(lbraceChar = '[') := by decide

theorem quote_ne_rbrace : ¬(('"' : Char) = rbraceChar) := by decide

theorem comma_ne_rbrace : ¬((',' : Char) = rbraceChar) := by decide


set_option maxHeartbeats 2000000 in
/-- Reading back what the encoder wrote: with enough fuel, the value
reader consumes exactly the encoding of `v` and returns `v`; the element
and field loops consume the encoded tails up to the closing
bracket/brace.  Proved by strong induction on the fuel. -/
theorem jparse_encVal (fuel : Nat) :
    (∀ (v : JVal) (rest : List Char), jfuel v ≤ fuel →
      jparseV fuel (encVal v ++ rest) = some (v, rest)) ∧
    (∀ (x : JVal) (xs : List JVal) (acc : List JVal) (rest : List Char),
      1 + jfuel x + ((xs.map (fun y => 1 + jfuel y)).sum) ≤ fuel →
      jparseItems fuel (encVal x ++ (encItemsTail xs ++ (']' :: rest))) acc =
        some (JVal.arr (acc ++ x :: xs), rest)) ∧
    (∀ (k : String) (v : JVal) (fs : List (String × JVal))
        (acc : List (String × JVal)) (rest : List Char),
      1 + jfuel v + ((fs.map (fun g => 1 + jfuel g.2)).sum) ≤ fuel →
      jparseFields fuel
        ('"' :: (escString k.data ++
          ('"' :: ':' :: ' ' :: (encVal v ++ (encFieldsTail fs ++ (rbraceChar :: rest))))))
        acc =
        some (JVal.obj (acc ++ (k, v) :: fs), rest)) := by
  induction fuel using Nat.strong_induction_on with
  | _ fuel ih =>
  cases fuel with
  | zero =>
    refine ⟨?_, ?_, ?_⟩
    · intro v rest h
      have hp := jfuel_pos v
      omega
    · intro x xs acc rest h
      have hp := jfuel_pos x
      omega
    · intro k v fs acc rest h
      have hp := jfuel_pos v
      omega
  | succ f =>
    obtain ⟨ihV, ihI, ihF⟩ := ih f (Nat.lt_succ_self f)
    refine ⟨?_, ?_, ?_⟩
    · intro v rest hle
      cases v with
      | null =>
        rw [encVal_null, jparseV.eq_def]
        simp [dropLit, atomResult]
      | bool b =>
        cases b with
        | false =>
          rw [encVal_false, jparseV.eq_def]
          simp [dropLit, atomResult]
        | true =>
          rw [encVal_true, jparseV.eq_def]
          simp [dropLit, atomResult]
      | str s =>
        rw [encVal_str, jparseV.eq_def]
        simp [jparseStr_escString, strResult, string_mk_data]
      | arr xs =>
        cases xs with
        | nil =>
          rw [encVal_arr_nil, jparseV.eq_def]
          simp
        | cons x xs =>
          rw [jfuel_arr] at hle
          simp only [List.map_cons, List.sum_cons] at hle
          obtain ⟨c, tl, hx, hc1, hc2⟩ := encVal_head_ne x
          have hI := ihI x xs [] rest (by omega)
          rw [encVal_arr_cons, jparseV.eq_def]
          rw [hx] at hI ⊢
          simp only [List.cons_append, List.append_assoc, List.singleton_append,
            List.nil_append] at hI ⊢
          simp [hc1, hI]
      | obj fs =>
        cases fs with
        | nil =>
          rw [encVal_obj_nil, jparseV.eq_def]
          simp [lbraceChar, rbraceChar]
        | cons g fs =>
          rw [jfuel_obj] at hle
          simp only [List.map_cons, List.sum_cons] at hle
          have hF := ihF g.1 g.2 fs [] rest (by omega)
          rw [encVal_obj_cons, jparseV.eq_def]
          simp only [List.cons_append, List.append_assoc, List.singleton_append,
            List.nil_append, lbraceChar, rbraceChar] at hF ⊢
          simp [hF, Prod.mk.eta]
    · intro x xs acc rest hb
      cases xs with
      | nil =>
        simp only [List.map_nil, List.sum_nil] at hb
        have hV := ihV x (']' :: rest) (by omega)
        rw [jparseItems.eq_def, encItemsTail_nil]
        simp only [List.nil_append]
        simp [hV]
      | cons y ys =>
        simp only [List.map_cons, List.sum_cons] at hb
        have hV := ihV x
          (',' :: ' ' :: (encVal y ++ (encItemsTail ys ++ (']' :: rest)))) (by omega)
        have hI := ihI y ys (acc ++ [x]) rest (by omega)
        rw [jparseItems.eq_def, encItemsTail_cons]
        simp only [List.cons_append, List.append_assoc, List.singleton_append,
          List.nil_append] at hV hI ⊢
        simp [hV, hI, List.append_assoc]
    · intro k v fs acc rest hb
      cases fs with
      | nil =>
        simp only [List.map_nil, List.sum_nil] at hb
        have hV := ihV v (rbraceChar :: rest) (by omega)
        rw [jparseFields.eq_def, encFieldsTail_nil]
        simp only [List.nil_append, rbraceChar] at hV ⊢
        simp [jparseStr_escString, hV, string_mk_data]
      | cons g gs =>
        simp only [List.map_cons, List.sum_cons] at hb
        have hV := ihV v
          (',' :: ' ' :: '"' ::
            (escString g.1.data ++
              ('"' :: ':' :: ' ' ::
                (encVal g.2 ++ (encFieldsTail gs ++ (rbraceChar :: rest)))))) (by omega)
        have hF := ihF g.1 g.2 gs (acc ++ [(k, v)]) rest (by omega)
        rw [jparseFields.eq_def, encFieldsTail_cons]
        simp only [List.cons_append, List.append_assoc, List.singleton_append,
          List.nil_append, rbraceChar, lbraceChar] at hV hF ⊢
        simp [jparseStr_escString, hV, hF, string_mk_data, List.append_assoc,
          Prod.mk.eta]

theorem jfuel_null : jfuel JVal.null = 1 := by rw [jfuel.eq_def]

theorem jfuel_bool (b : Bool) : jfuel (JVal.bool b) = 1 := by rw [jfuel.eq_def]

theorem jfuel_str (s : String) : jfuel (JVal.str s) = 1 := by rw [jfuel.eq_def]

theorem jval_sizeOf_pos (v : JVal) : 1 ≤ sizeOf v := by
  cases v <;> simp_arith

theorem sum_le_encItemsTail (ys : List JVal)
    (h : ∀ y ∈ ys, jfuel y ≤ (encVal y).length) :
    ((ys.map (fun y => 1 + jfuel y)).sum) ≤ (encItemsTail ys).length := by
  induction ys with
  | nil => simp [encItemsTail_nil]
  | cons y ys ih2 =>
    rw [encItemsTail_cons]
    simp only [List.map_cons, List.sum_cons, List.length_cons, List.length_append]
    have h1 := h y (by simp)
    have h2 := ih2 (fun z hz => h z (by simp [hz]))
    omega

theorem sum_le_encFieldsTail (gs : List (String × JVal))
    (h : ∀ g ∈ gs, jfuel g.2 ≤ (encVal g.2).length) :
    ((gs.map (fun g => 1 + jfuel g.2)).sum) ≤ (encFieldsTail gs).length := by
  induction gs with
  | nil => simp [encFieldsTail_nil]
  | cons g gs ih2 =>
    rw [encFieldsTail_cons]
    simp only [List.map_cons, List.sum_cons, List.length_cons, List.length_append]
    have h1 := h g (by simp)
    have h2 := ih2 (fun z hz => h z (by simp [hz]))
    omega

/-- The encoding of a document is at least as long as the fuel its reader
needs, so sizing the reader's fuel by the input length always suffices. -/
theorem jfuel_le_encLen : ∀ (n : Nat) (v : JVal), sizeOf v ≤ n →
    jfuel v ≤ (encVal v).length := by
  intro n
  induction n using Nat.strong_induction_on with
  | _ n ih =>
    intro v hv
    cases v with
    | null => simp [jfuel_null, encVal_null]
    | bool b => cases b <;> simp [jfuel_bool, encVal_true, encVal_false]
    | str s => simp [jfuel_str, encVal_str]
    | arr xs =>
      cases xs with
      | nil => simp [jfuel_arr, encVal_arr_nil, encItemsTail_nil]
      | cons x xs =>
        simp only [JVal.arr.sizeOf_spec, List.cons.sizeOf_spec] at hv
        have hx : jfuel x ≤ (encVal x).length := by
          have hp := jval_sizeOf_pos x
          exact ih (n - 1) (by omega) x (by omega)
        have hmem : ∀ y ∈ xs, jfuel y ≤ (encVal y).length := by
          intro y hy
          have h1 := List.sizeOf_lt_of_mem hy
          exact ih (n - 1) (by omega) y (by omega)
        have htail := sum_le_encItemsTail xs hmem
        rw [jfuel_arr, encVal_arr_cons]
        simp only [List.map_cons, List.sum_cons, List.length_cons, List.length_append]
        omega
    | obj fs =>
      cases fs with
      | nil => simp [jfuel_obj, encVal_obj_nil, encFieldsTail_nil]
      | cons g fs =>
        simp only [JVal.obj.sizeOf_spec, List.cons.sizeOf_spec] at hv
        have hg2lt : sizeOf g.2 < sizeOf g := by
          rcases hp : g with ⟨a, b⟩
          simp only [Prod.mk.sizeOf_spec, Prod.snd]
          omega
        have hx : jfuel g.2 ≤ (encVal g.2).length := by
          exact ih (n - 1) (by omega) g.2 (by omega)
        have hmem : ∀ h ∈ fs, jfuel h.2 ≤ (encVal h.2).length := by
          intro h hy
          have h1 := List.sizeOf_lt_of_mem hy
          have h2 : sizeOf h.2 < sizeOf h := by
            rcases hp : h with ⟨a, b⟩
            simp only [Prod.mk.sizeOf_spec, Prod.snd]
            omega
          exact ih (n - 1) (by omega) h.2 (by omega)
        have htail := sum_le_encFieldsTail fs hmem
        rw [jfuel_obj, encVal_obj_cons]
        simp only [List.map_cons, List.sum_cons, List.length_cons, List.length_append]
        omega

/-- Decoding inverts encoding on every document. -/
theorem jdecode_jencode (v : JVal) : jdecode (jencode v) = some v := by
  have hb := jfuel_le_encLen (sizeOf v) v (Nat.le_refl _)
  have h := (jparse_encVal ((encVal v).length + 1)).1 v [] (by omega)
  rw [List.append_nil] at h
  simp [jdecode, jencode, h]

/-! ## Framing and the remote input client

`ophelia_input.browser_input` (PluginTemplate.py lines 354-421): serialize
the page, `json.dumps`, UTF-8 encode, then per attempt open a fresh socket,
send a `struct.pack("!I", size)` prefix followed by the payload in one
`sendall`, and wait for a response. -/

/-- UTF-8 encoding of one code point, as `str.encode("utf-8")` produces. -/
def utf8EncodeChar (n : Nat) : List Nat :=
  if n < 128 then [n]
  else if n < 2048 then [192 + n / 64, 128 + n % 64]
  else if n < 65536 then [224 + n / 4096, 128 + n / 64 % 64, 128 + n % 64]
  else [240 + n / 262144, 128 + n / 4096 % 64, 128 + n / 64 % 64, 128 + n % 64]

/-- Model of `payload_json.encode("utf-8")`: the byte sequence of a text. -/
def utf8Bytes (s : String) : List Nat :=
  (s.data.map (fun c => utf8EncodeChar c.toNat)).flatten

/-- Model of `struct.pack("!I", n)`: four bytes, big-endian, unsigned; raises
`struct.error` (modelled as `none`) when `n` does not fit in 32 bits. -/
def packBangI (n : Nat) : Option (List Nat) :=
  if n < 4294967296 then
    some [n / 16777216 % 256, n / 65536 % 256, n / 256 % 256, n % 256]
  else none

/-- Model of `payload_bytes` for a page (lines 377-379): UTF-8 bytes of the JSON
text of the serialized page. -/
def pagePayloadBytes (p : JS_Page) : List Nat := utf8Bytes (jencode p.serialize)

/-- The single message `sock.sendall(size_packed + payload_bytes)` writes
(lines 387-388): the packed length prefix immediately followed by the
payload bytes. -/
def sentMessage (p : JS_Page) : Option (List Nat) :=
  match packBangI (pagePayloadBytes p).length with
  | some size_packed => some (size_packed ++ pagePayloadBytes p)
  | none => none

/-- Interpret a byte sequence as a big-endian unsigned integer. -/
def beU32 (bs : List Nat) : Nat := bs.foldl (fun acc b => acc * 256 + b) 0

/-- Abstract outcome of one connection attempt of `browser_input`,
keyed by the `except` arms of the source (lines 395-419): the attempt
either yields response text (connect, sendall, recv and UTF-8 decode all
succeed), or raises one of the caught exception classes. -/
inductive AttemptOutcome where
  | success (raw : String) : AttemptOutcome
  | connectionRefusedOrReset : AttemptOutcome
  | gaierror : AttemptOutcome
  | timeout : AttemptOutcome
  | otherError : AttemptOutcome

/-- Whether the loop moves on to the next attempt after this outcome:
connection errors, resolution errors and unexpected errors are retried
(including a response whose JSON decoding fails, which raises inside the
`try` and is caught by `except Exception`); a timeout breaks; a decodable
response breaks with the answer. -/
def attemptRetried : AttemptOutcome → Bool
  | .success raw => (jdecode raw).isNone
  | .connectionRefusedOrReset => true
  | .gaierror => true
  | .timeout => false
  | .otherError => true

/-- The retry loop `for attempt in range(1, 4)` of `browser_input`
(lines 382-421), over the remaining attempt numbers.  `answer` starts as
the empty mapping and is only reassigned on a successful decode.  The
returned trace lists the attempts that ran; each ran on a fresh socket
(`with socket.socket(...)` opens a new connection per iteration). -/
def browser_go (env : Nat → AttemptOutcome) :
    List Nat → JVal → List Nat → JVal × List Nat
  | [], answer, opened => (answer, opened)
  | a :: rest, answer, opened =>
    match env a with
    | .success raw =>
      match jdecode raw with
      | some v => (v, opened ++ [a])
      | none => browser_go env rest answer (opened ++ [a])
    | .connectionRefusedOrReset => browser_go env rest answer (opened ++ [a])
    | .gaierror => browser_go env rest answer (opened ++ [a])
    | .timeout => (answer, opened ++ [a])
    | .otherError => browser_go env rest answer (opened ++ [a])

/-- Model of `browser_input` as a function of the per-attempt environment: the
answer returned to the caller (never an exception: every exception class
raised inside an attempt is caught) together with the trace of attempts,
each of which opened a fresh connection. -/
def browser_input (env : Nat → AttemptOutcome) : JVal × List Nat :=
  browser_go env [1, 2, 3] (JVal.obj []) []

theorem browser_step_retry (env : Nat → AttemptOutcome) (a : Nat)
    (rest : List Nat) (answer : JVal) (opened : List Nat)
    (h : attemptRetried (env a) = true) :
    browser_go env (a :: rest) answer opened =
      browser_go env rest answer (opened ++ [a]) := by
  cases henv : env a <;> rw [henv] at h <;> simp [browser_go, henv]
  · rw [attemptRetried, Option.isNone_iff_eq_none] at h
    simp [h]
  · rw [attemptRetried] at h
    simp at h

theorem browser_step_timeout (env : Nat → AttemptOutcome) (a : Nat)
    (rest : List Nat) (answer : JVal) (opened : List Nat)
    (h : env a = AttemptOutcome.timeout) :
    browser_go env (a :: rest) answer opened = (answer, opened ++ [a]) := by
  simp [browser_go, h]

/-! ## Keyword binding of the `input_scheme` call to `JS_Page`

`ophelia_plugin.input_scheme` (PluginTemplate.py lines 82-114) calls
`DSL.JS_Page(title=..., description=..., prompt=..., form=..., root=...,
effects=effects, presets=presets)`, while `JS_Page.__init__`
(DSL.py line 186) declares only `self, title, prompt, form, description,
root` and no `**kwargs`. -/

/-- The parameter names `JS_Page.__init__` accepts (DSL.py line 186),
after `self`. -/
def JS_Page_init_params : List String := ["title", "prompt", "form", "description", "root"]

/-- The keyword names `input_scheme` passes to `DSL.JS_Page`
(PluginTemplate.py lines 97-113), in call order. -/
def input_scheme_call_keywords : List String :=
  ["title", "description", "prompt", "form", "root", "effects", "presets"]

/-- Python keyword binding: calling a function that declares parameter
list `ps` and no `**kwargs` with keyword names `ks` raises
`TypeError: unexpected keyword argument` at the first keyword not among
the parameters, before the body runs. -/
def pyUnexpectedKeyword (ps ks : List String) : Option String :=
  ks.find? (fun k => !(ps.contains k))

/-- Whether the `DSL.JS_Page(...)` call inside `input_scheme` raises
`TypeError`; the keyword set is the same for every choice of
`input_scheme`'s arguments. -/
def input_scheme_raises : Bool :=
  (pyUnexpectedKeyword JS_Page_init_params input_scheme_call_keywords).isSome

theorem heading_class_type_spec (l : Int) :
    heading_class_type l = if 1 ≤ l ∧ l ≤ 6 then "h" ++ toString l else "h1" := by
  by_cases hr : 1 ≤ l ∧ l ≤ 6
  · obtain ⟨hlo, hhi⟩ := hr
    interval_cases l <;> decide
  · rw [if_neg hr, heading_class_type]
    rw [if_neg (by omega : ¬l = 1), if_neg (by omega : ¬l = 2),
      if_neg (by omega : ¬l = 3), if_neg (by omega : ¬l = 4),
      if_neg (by omega : ¬l = 5), if_neg (by omega : ¬l = 6)]

/-- The page `DEFAULT_BROWSER_PROMPT` built in the source
(PluginTemplate.py lines 299-315). -/
def samplePage : JS_Page :=
  { title := "Input Required", description := "", prompt := "", form := true,
    root := JS_Component.container (some "div") "new-input-div" none []
      [JS_Component.leaf (some "input") "generic_input" none
        [("label", JVal.str "Input"), ("hint", JVal.str "Input Required"),
         ("type", JVal.str "text")]] }

/-- A concrete child field for evaluating the header composite. -/
def sampleChild : JS_Component :=
  JS_Component.leaf (some "label") "x" none [("text", JVal.str "t")]

/-- C1: the claim says a Page envelope can carry optional `effects`/`presets`
maps and that `input_scheme` never raises.  The code violates this:
`JS_Page.__init__` accepts only `title`, `prompt`, `form`, `description`,
`root` and declares no `**kwargs`, while `input_scheme` always passes the
keywords `effects` and `presets`, so Python rejects the call with
`TypeError: unexpected keyword argument` (first offending keyword:
`effects`) on every invocation.  This theorem evaluates the keyword
binding of that call. -/
theorem C1_input_scheme_always_raises :
    pyUnexpectedKeyword JS_Page_init_params input_scheme_call_keywords = some "effects" ∧
    input_scheme_raises = true := by
  constructor <;> rfl

theorem list_take4_cons (a b c d : Nat) (l : List Nat) :
    (a :: b :: c :: d :: l).take 4 = [a, b, c, d] := rfl

theorem list_drop4_cons (a b c d : Nat) (l : List Nat) :
    (a :: b :: c :: d :: l).drop 4 = l := rfl

/-- C4: every message `browser_input` writes to the socket is a 4-byte
big-endian unsigned length prefix immediately followed by the UTF-8
payload bytes, and the prefix read back as big-endian unsigned equals the
payload's exact byte length. -/
theorem C4_framing_correct (p : JS_Page) (msg : List Nat)
    (h : sentMessage p = some msg) :
    beU32 (msg.take 4) = (pagePayloadBytes p).length ∧
    msg.drop 4 = pagePayloadBytes p := by
  rw [sentMessage, packBangI] at h
  by_cases hlen : (pagePayloadBytes p).length < 4294967296
  · rw [if_pos hlen] at h
    simp only [Option.some.injEq] at h
    subst h
    simp only [List.cons_append, List.nil_append, list_take4_cons, list_drop4_cons]
    refine ⟨?_, by trivial⟩
    simp only [beU32, List.foldl]
    omega
  · rw [if_neg hlen] at h
    simp at h

set_option maxRecDepth 100000 in
theorem C4_framing_correct_witness :
    beU32 (((sentMessage samplePage).getD []).take 4) =
      (pagePayloadBytes samplePage).length ∧
    ((sentMessage samplePage).getD []).drop 4 = pagePayloadBytes samplePage :=
  C4_framing_correct samplePage ((sentMessage samplePage).getD []) (by rfl)

/-- C2: if a timeout elapses on some attempt (after earlier attempts, if
any, failed with retried errors), `browser_input` makes no further
attempts: the trace stops at that attempt, no exception reaches the
caller (the model is a total function), and the returned Answer Mapping
is the still-empty `answer`. -/
theorem C2_timeout_terminal (env : Nat → AttemptOutcome) (k : Nat)
    (hk : k ∈ ([1, 2, 3] : List Nat))
    (hprev : ∀ j ∈ ([1, 2, 3] : List Nat), j < k → attemptRetried (env j) = true)
    (ht : env k = AttemptOutcome.timeout) :
    browser_input env = (JVal.obj [], ([1, 2, 3] : List Nat).take k) := by
  fin_cases hk
  · rw [browser_input, browser_step_timeout env 1 _ _ _ ht]
    rfl
  · have h1 := hprev 1 (by simp) (by omega)
    rw [browser_input, browser_step_retry env 1 _ _ _ h1,
      browser_step_timeout env 2 _ _ _ ht]
    rfl
  · have h1 := hprev 1 (by simp) (by omega)
    have h2 := hprev 2 (by simp) (by omega)
    rw [browser_input, browser_step_retry env 1 _ _ _ h1,
      browser_step_retry env 2 _ _ _ h2, browser_step_timeout env 3 _ _ _ ht]
    rfl

theorem C2_timeout_terminal_witness :
    browser_input (fun _ => AttemptOutcome.timeout) = (JVal.obj [], [1]) :=
  C2_timeout_terminal (fun _ => AttemptOutcome.timeout) 1 (by decide)
    (by intro j hj hlt; fin_cases hj <;> omega) rfl

/-- C3: against a peer refusing or resetting every connection,
`browser_input` performs exactly the three attempts `1, 2, 3`, each
opening a fresh socket, raises nothing to the caller, and returns the
empty Answer Mapping. -/
theorem C3_refused_three_attempts (env : Nat → AttemptOutcome)
    (h : ∀ j ∈ ([1, 2, 3] : List Nat),
      env j = AttemptOutcome.connectionRefusedOrReset) :
    browser_input env = (JVal.obj [], [1, 2, 3]) := by
  have h1 := h 1 (by simp)
  have h2 := h 2 (by simp)
  have h3 := h 3 (by simp)
  rw [browser_input, browser_step_retry env 1 _ _ _ (by rw [h1]; rfl),
    browser_step_retry env 2 _ _ _ (by rw [h2]; rfl),
    browser_step_retry env 3 _ _ _ (by rw [h3]; rfl)]
  rfl

theorem C3_refused_three_attempts_witness :
    browser_input (fun _ => AttemptOutcome.connectionRefusedOrReset) =
      (JVal.obj [], [1, 2, 3]) :=
  C3_refused_three_attempts (fun _ => AttemptOutcome.connectionRefusedOrReset)
    (fun _ _ => rfl)

/-- C5: the claim says that with no caller-supplied classes the composite
header container's classes is the fixed class alone.  The code computes
`f"headerDivDefault {classes}"`, and Python renders the default
`classes=None` as the text `None`, so the container's classes is
`"headerDivDefault None"`, not `"headerDivDefault"`.  This theorem
evaluates the constructor at such a call. -/
theorem C5_header_div_none_classes :
    (JS_Header_Div_init "d" "T" 1 sampleChild none []).1.classes =
      some "headerDivDefault None" ∧
    (JS_Header_Div_init "d" "T" 1 sampleChild none []).1.classes ≠
      some "headerDivDefault" := by
  constructor
  · rfl
  · decide

/-- C6: the composite header container has exactly two children in fixed
order — first a heading leaf whose id is the container id plus
`"_header"` and whose type is `"h" + L` for `L` in `1..6` and `"h1"`
otherwise, then the given child (in its post-construction state, see
C10) — and its classes begins with the fixed marker token
`headerDivDefault`. -/
theorem C6_header_div_structure (id header : String) (l : Int)
    (child : JS_Component) (classes : Option String)
    (props : List (String × JVal)) :
    (JS_Header_Div_init id header l child classes props).1.children =
      [JS_Component.leaf (some (heading_class_type l)) (id ++ "_header") none
        [("text", JVal.str header)],
       (JS_Header_Div_init id header l child classes props).2] ∧
    (JS_Header_Div_init id header l child classes props).2 =
      JS_add_class child "inputFieldDefaults" ∧
    heading_class_type l = (if 1 ≤ l ∧ l ≤ 6 then "h" ++ toString l else "h1") ∧
    (∃ restc, (JS_Header_Div_init id header l child classes props).1.classes =
      some ("headerDivDefault " ++ restc)) :=
  ⟨rfl, rfl, heading_class_type_spec l, ⟨pyStr classes, rfl⟩⟩

/-- C7: a container's serialized document has a `children` entry holding
exactly the serializations of its children, in insertion order. -/
theorem C7_children_order_preserved (t : Option String) (i : String)
    (c : Option String) (p : List (String × JVal)) (cs : List JS_Component) :
    jobjGet (JS_Component.serialize (.container t i c p cs)) "children" =
      some (JVal.arr (cs.map JS_Component.serialize)) := by
  rw [JS_Component.serialize_container]
  rfl

/-- C8: a leaf's document has exactly the keys `type`, `id`, `classes`,
`props` and no `children` key; a container's document always has a
`children` key, which holds the empty list (present, not absent) when the
container has no children. -/
theorem C8_leaf_container_shape :
    (∀ (t : Option String) (i : String) (c : Option String)
        (p : List (String × JVal)),
      jobjKeys (JS_Component.serialize (.leaf t i c p)) =
        some ["type", "id", "classes", "props"] ∧
      jobjGet (JS_Component.serialize (.leaf t i c p)) "children" = none) ∧
    (∀ (t : Option String) (i : String) (c : Option String)
        (p : List (String × JVal)) (cs : List JS_Component),
      jobjKeys (JS_Component.serialize (.container t i c p cs)) =
        some ["type", "id", "classes", "props", "children"] ∧
      jobjGet (JS_Component.serialize (.container t i c p cs)) "children" =
        some (JVal.arr (cs.map JS_Component.serialize))) ∧
    (∀ (t : Option String) (i : String) (c : Option String)
        (p : List (String × JVal)),
      jobjGet (JS_Component.serialize (.container t i c p [])) "children" =
        some (JVal.arr [])) := by
  refine ⟨fun t i c p => ⟨rfl, rfl⟩, fun t i c p cs => ⟨?_, ?_⟩, fun t i c p => rfl⟩
  · rw [JS_Component.serialize_container]
    rfl
  · rw [JS_Component.serialize_container]
    rfl

/-- C9: decoding the JSON text of any serialized Page document yields the
same document back. -/
theorem C9_decode_encode_roundtrip (p : JS_Page) :
    jdecode (jencode (JS_Page.serialize p)) = some (JS_Page.serialize p) :=
  jdecode_jencode (JS_Page.serialize p)

/-- C10: constructing the composite header container mutates the
caller's child in place: afterwards the child's classes has
`inputFieldDefaults` appended (or equals it when the child had no
classes — `None` or an empty string, both falsy in Python), the
container's second child is exactly that mutated object (modelled as the
state-passed post-state, not a copy), and the child's other fields —
type, id, props, children — are unchanged. -/
theorem C10_header_div_mutates_child (id header : String) (l : Int)
    (child : JS_Component) (classes : Option String)
    (props : List (String × JVal)) :
    (JS_Header_Div_init id header l child classes props).2 =
      JS_add_class child "inputFieldDefaults" ∧
    ((JS_Header_Div_init id header l child classes props).1.children).get? 1 =
      some ((JS_Header_Div_init id header l child classes props).2) ∧
    (JS_add_class child "inputFieldDefaults").classes =
      some (match child.classes with
        | none => "inputFieldDefaults"
        | some s =>
          if s = "" then "inputFieldDefaults" else s ++ " " ++ "inputFieldDefaults") ∧
    (JS_add_class child "inputFieldDefaults").type = child.type ∧
    (JS_add_class child "inputFieldDefaults").id = child.id ∧
    (JS_add_class child "inputFieldDefaults").props = child.props ∧
    (JS_add_class child "inputFieldDefaults").children = child.children := by
  refine ⟨rfl, rfl, ?_, ?_, ?_, ?_, ?_⟩
  · cases child with
    | leaf t i cl p =>
      cases cl with
      | none => rfl
      | some s =>
        by_cases hs : s = ""
        · subst hs
          rfl
        · simp [JS_add_class, JS_Component.classes, pyTruthyStr, hs, Option.getD]
    | container t i cl p cs =>
      cases cl with
      | none => rfl
      | some s =>
        by_cases hs : s = ""
        · subst hs
          rfl
        · simp [JS_add_class, JS_Component.classes, pyTruthyStr, hs, Option.getD]
  · cases child <;> rfl
  · cases child <;> rfl
  · cases child <;> rfl
  · cases child <;> rfl
